import Mathlib

/-!
Verification of the resumable append-only binary storage engine of the
johansen-null-eigenspectra repository.

Shallow embedding conventions:
* A file is a `List Nat` of bytes; every byte produced by the embedded code is
  `< 256`.  Rust `u8`/`u32`/`u64` values are `Nat`s, with the relevant bounds
  (`< 256`, `< 2^32`, `< 2^64`) carried as hypotheses where they matter and
  explicit `% 2^w` written where the source performs an `as` conversion on a
  value that is not already known to fit.
* `f64` eigenvalues are modelled by their IEEE-754 bit patterns (`Nat < 2^64`):
  `f64::to_le_bytes` / `f64::from_le_bytes` are bit-exact inverses, so the
  byte-level behaviour of the storage layer is captured exactly.
* Fallible Rust functions returning `std::io::Result` / `Result<_, Uleb128Error>`
  become `Except` values.  `read_exact` on a too-short source is an
  `UnexpectedEof` I/O error, modelled by `StorageError.eof`; formatted error
  messages keep the source's constant text, with the interpolated numbers
  elided.
* Source loops whose termination is by a decreasing numeric measure are given
  an explicit fuel argument (structural recursion, so that the kernel can
  evaluate them); the wrapper always supplies fuel strictly larger than the
  measure, so the out-of-fuel branch is unreachable and the functions agree
  with the source loops.
-/

set_option maxRecDepth 10000

deriving instance DecidableEq for Except

/-- Error type of `data_storage::uleb128::Uleb128Error`. -/
inductive Uleb128Error where
  | valueTooLarge
  | incompleteEncoding
  | encodingTooLong
  | ioError (msg : String)
deriving DecidableEq, Repr

/-- Loop of `uleb128::encode`.  Each iteration of the source takes the low 7
bits (`value & 0x7F`), shifts (`value >>= 7`), sets the continuation bit
`0x80` when more bytes follow, and pushes the byte.  Fuel `value + 1` always
suffices because `value / 128 < value` for `value ≠ 0`. -/
def uleb128EncodeGo : Nat → Nat → List Nat
  | 0, _ => []
  | fuel + 1, value =>
    let byte := value % 128
    let rest := value / 128
    if rest = 0 then [byte] else (byte + 128) :: uleb128EncodeGo fuel rest

/-- `uleb128::encode`: ULEB128-encode a `u32`. -/
def uleb128Encode (value : Nat) : List Nat :=
  uleb128EncodeGo (value + 1) value

/-- Loop of `uleb128::decode`, with the accumulated `result`, current `shift`
and `bytes_read` counter as explicit state.  `result |= value_bits << shift`
is written as `result + valueBits * 2 ^ shift`, which agrees with the source
because the accumulated bits are disjoint from the incoming group and the
guarded shifts cannot overflow `u32`. -/
def uleb128DecodeGo : List Nat → Nat → Nat → Nat → Except Uleb128Error (Nat × Nat)
  | [], _, _, _ => .error .incompleteEncoding
  | byte :: rest, result, shift, bytesRead =>
    let bytesRead' := bytesRead + 1
    if bytesRead' > 5 then .error .encodingTooLong
    else if shift ≥ 32 then .error .valueTooLarge
    else
      let valueBits := byte % 128
      if shift = 28 ∧ valueBits > 0x0F then .error .valueTooLarge
      else
        let result' := result + valueBits * 2 ^ shift
        if byte % 256 < 128 then .ok (result', bytesRead')
        else uleb128DecodeGo rest result' (shift + 7) bytesRead'

/-- `uleb128::decode`: decode one ULEB128 `u32` from a byte slice, returning
the value and the number of bytes consumed. -/
def uleb128Decode (bytes : List Nat) : Except Uleb128Error (Nat × Nat) :=
  uleb128DecodeGo bytes 0 0 0

/-- Loop of `uleb128::encoded_size` for a nonzero value: count base-128
digits.  Fuel as in `uleb128EncodeGo`. -/
def uleb128SizeGo : Nat → Nat → Nat
  | 0, _ => 0
  | fuel + 1, v => if v = 0 then 0 else 1 + uleb128SizeGo fuel (v / 128)

/-- `uleb128::encoded_size`: number of bytes `encode` would produce. -/
def uleb128EncodedSize (value : Nat) : Nat :=
  if value = 0 then 1 else uleb128SizeGo (value + 1) value

/-- Loop of `uleb128::read_from_reader`: the streaming decoder over a buffered
source, modelled as the list of bytes remaining in the stream.  `read_exact`
of one byte at end of stream is an `UnexpectedEof` error, converted by
`From<std::io::Error>` into `IoError("failed to fill whole buffer")`. -/
def readFromReaderGo : List Nat → Nat → Nat → Nat → Except Uleb128Error Nat
  | [], _, _, _ => .error (.ioError "failed to fill whole buffer")
  | byte :: rest, result, shift, bytesRead =>
    let bytesRead' := bytesRead + 1
    if shift ≥ 32 then .error .valueTooLarge
    else
      let valueBits := byte % 128
      if shift = 28 ∧ valueBits > 0x0F then .error .valueTooLarge
      else
        let result' := result + valueBits * 2 ^ shift
        if byte % 256 < 128 then .ok result'
        else if bytesRead' > 5 then .error .encodingTooLong
        else readFromReaderGo rest result' (shift + 7) bytesRead'

/-- `uleb128::read_from_reader` applied to a stream holding `bytes`. -/
def readFromReader (bytes : List Nat) : Except Uleb128Error Nat :=
  readFromReaderGo bytes 0 0 0

example : uleb128Encode 0 = [0x00] := by decide
example : uleb128Encode 127 = [0x7F] := by decide
example : uleb128Encode 128 = [0x80, 0x01] := by decide
example : uleb128Encode 300 = [0xAC, 0x02] := by decide
example : uleb128Decode [0xAC, 0x02] = .ok (300, 2) := by decide
example : uleb128Decode [0x80] = .error .incompleteEncoding := by decide
example : uleb128Decode [] = .error .incompleteEncoding := by decide
example : uleb128Decode [0x80, 0x80, 0x80, 0x80, 0x80, 0x80] =
    .error .encodingTooLong := by decide
example : readFromReader [0x80, 0x80, 0x80, 0x80, 0x80, 0x80] =
    .error .valueTooLarge := by decide
example : readFromReader [0x80] = .error (.ioError "failed to fill whole buffer") := by
  decide
example : uleb128EncodedSize 16384 = 3 := by decide

/-! ## File format (`data_storage::file_format`) -/

/-- `MAGIC_HEADER`: the 12 magic bytes `b"EIGENVALS_V6"`. -/
def MAGIC_HEADER : List Nat := [69, 73, 71, 69, 78, 86, 65, 76, 83, 95, 86, 54]

/-- `EOF_MARKER`: the 8 footer-marker bytes `b"EOF_MARK"`. -/
def EOF_MARKER : List Nat := [69, 79, 70, 95, 77, 65, 82, 75]

/-- First half of `EOF_MARKER`, `b"EOF_"`: what `scan_read_data` compares a
4-byte seed buffer against. -/
def EOF_MARKER_HEAD : List Nat := [69, 79, 70, 95]

/-- Second half of `EOF_MARKER`, `b"MARK"`. -/
def EOF_MARKER_TAIL : List Nat := [77, 65, 82, 75]

/-- `u32::to_le_bytes`. -/
def u32le (n : Nat) : List Nat :=
  [n % 256, n / 256 % 256, n / 256 ^ 2 % 256, n / 256 ^ 3 % 256]

/-- `u64::to_le_bytes`. -/
def u64le (n : Nat) : List Nat :=
  [n % 256, n / 256 % 256, n / 256 ^ 2 % 256, n / 256 ^ 3 % 256,
   n / 256 ^ 4 % 256, n / 256 ^ 5 % 256, n / 256 ^ 6 % 256, n / 256 ^ 7 % 256]

/-- `uN::from_le_bytes`: the little-endian value of a byte buffer. -/
def leFromBytes (bs : List Nat) : Nat :=
  bs.foldr (fun b acc => b + 256 * acc) 0

/-- Loop of `file_format::calculate_total_uleb128_size`: total ULEB128-encoded
size of all seeds `1 ..= max_value`, computed band by band.  `saturating_sub`
is `Nat` subtraction; performing the subtraction unconditionally agrees with
the source, which skips a band's `remaining -= …` only when `remaining = 0`
(and then the saturating subtraction would have left it `0` anyway). -/
def calculateTotalUleb128Size (maxValue : Nat) : Nat :=
  if maxValue = 0 then 1
  else
    let remaining0 := maxValue
    let total1 := if remaining0 ≥ 1 then min remaining0 127 else 0
    let remaining1 := remaining0 - 127
    let total2 := if remaining1 > 0 then (min remaining1 (16383 - 127)) * 2 else 0
    let remaining2 := remaining1 - (16383 - 127)
    let total3 := if remaining2 > 0 then (min remaining2 (2097151 - 16383)) * 3 else 0
    let remaining3 := remaining2 - (2097151 - 16383)
    let total4 := if remaining3 > 0 then (min remaining3 (268435455 - 2097151)) * 4 else 0
    let remaining4 := remaining3 - (268435455 - 2097151)
    let total5 := if remaining4 > 0 then remaining4 * 5 else 0
    total1 + total2 + total3 + total4 + total5

/-- `file_format::calculate_expected_file_size`.  `num_runs as u32` is
`% 2 ^ 32`; the `u64` arithmetic of the source wraps modulo `2 ^ 64`. -/
def calculateExpectedFileSize (numRuns eigenvaluesPerRun : Nat) : Nat :=
  let header := MAGIC_HEADER.length + 1 + 1 + 4
  let totalSeedBytes := calculateTotalUleb128Size (numRuns % 2 ^ 32)
  let eigenvaluesTotalBytes := eigenvaluesPerRun * 8 * numRuns
  let eigenvalueCountsBytes := numRuns
  let metadata := EOF_MARKER.length + 8 + 1
  (header + totalSeedBytes + eigenvalueCountsBytes + eigenvaluesTotalBytes + metadata) % 2 ^ 64

/-! ## Reader (`data_storage::reader`) -/

/-- Error type for the embedded `std::io` operations. -/
inductive StorageError where
  | invalidData (msg : String)
  | eof
deriving DecidableEq, Repr

/-- `read_exact` of `len` bytes at absolute position `pos` of file `B`:
succeeds exactly when that many bytes exist, returning them. -/
def readExact (B : List Nat) (pos len : Nat) : Option (List Nat) :=
  if pos + len ≤ B.length then some ((B.drop pos).take len) else none

/-- The `len` bytes at position `pos` (the payload of a successful
`readExact`). -/
def byteSlice (B : List Nat) (pos len : Nat) : List Nat :=
  (B.drop pos).take len

/-- `reader::read_file_metadata`: look for the footer
`eof_marker[8] | total_count[8] | eigenvalues_per_run[1]` in the last 17
bytes.  The caller guarantees `B.length ≥ 35`, so the seek and the three
`read_exact`s cannot fail. -/
def readFileMetadata (B : List Nat) : Option (Nat × Nat) :=
  if byteSlice B (B.length - 17) 8 = EOF_MARKER then
    some (leFromBytes (byteSlice B (B.length - 9) 8), leFromBytes (byteSlice B (B.length - 1) 1))
  else none

/-- The value-reading loop shared by both reader paths: `count` sequential
8-byte `read_exact`s from position `pos`, each decoded with
`f64::from_le_bytes` (modelled by its bit pattern). -/
def readEigenvaluesGo (B : List Nat) : Nat → Nat → Option (List Nat)
  | _, 0 => some []
  | pos, count + 1 =>
    match readExact B pos 8 with
    | none => none
    | some valBuf =>
      match readEigenvaluesGo B (pos + 8) count with
      | none => none
      | some vs => some (leFromBytes valBuf :: vs)

/-- Loop of `reader::read_with_metadata` (the fast path): read exactly
`total_count` records of shape `seed[4] | count[1] | values[count * 8]`,
rejecting a zero count and a count different from the footer's
`eigenvalues_per_run`. -/
def readWithMetadataGo (B : List Nat) (eigenvaluesPerRun : Nat) :
    Nat → Nat → List (Nat × List Nat) → Except StorageError (List (Nat × List Nat))
  | 0, _, data => .ok data
  | remaining + 1, pos, data =>
    match readExact B pos 4 with
    | none => .error .eof
    | some seedBuf =>
      match readExact B (pos + 4) 1 with
      | none => .error .eof
      | some countBuf =>
        let seed := leFromBytes seedBuf
        let eigenvalueCount := leFromBytes countBuf
        if eigenvalueCount = 0 then
          .error (.invalidData "Invalid eigenvalue count: cannot be zero")
        else if eigenvalueCount ≠ eigenvaluesPerRun then
          .error (.invalidData "Eigenvalue count mismatch")
        else
          match readEigenvaluesGo B (pos + 5) eigenvalueCount with
          | none => .error .eof
          | some eigenvalues =>
            readWithMetadataGo B eigenvaluesPerRun remaining (pos + 5 + 8 * eigenvalueCount)
              (data ++ [(seed, eigenvalues)])

/-- `reader::read_with_metadata`, starting after the 18-byte header. -/
def readWithMetadata (B : List Nat) (totalCount eigenvaluesPerRun : Nat) :
    Except StorageError (List (Nat × List Nat)) :=
  readWithMetadataGo B eigenvaluesPerRun totalCount 18 []

/-- Loop of `reader::scan_read_data` (the scan path for files without a
footer), with the `BufReader` position made explicit.  A failed `read_exact`
consumes the remaining bytes (position becomes `B.length`) before the
source's relative seek of `-4` / `-1`, which is why the failure branches
continue at `B.length - 4` / `B.length - 1`.  Each completed iteration
advances the position by at least 5 bytes, so fuel `B.length + 1` never runs
out. -/
def scanReadDataGo (B : List Nat) : Nat → Nat → List (Nat × List Nat) →
    Except StorageError (List (Nat × List Nat))
  | 0, _, data => .ok data
  | fuel + 1, pos, data =>
    match readExact B pos 4 with
    | none => .ok data
    | some seedBuf =>
      -- `seed_buf == b"EOF_"`: probe the next 4 bytes for `b"MARK"`, seeking
      -- back past them when they do not match.
      let afterEofCheck : Option Nat :=
        if seedBuf = EOF_MARKER_HEAD then
          match readExact B (pos + 4) 4 with
          | some remainingEof =>
            if remainingEof = EOF_MARKER_TAIL then none else some (pos + 4)
          | none => some (B.length - 4)
        else some (pos + 4)
      match afterEofCheck with
      | none => .ok data
      | some pos2 =>
        -- all-zero seed: probe the count byte for a pre-allocated blank region
        let afterZeroCheck : Option Nat :=
          if seedBuf = [0, 0, 0, 0] then
            match readExact B pos2 1 with
            | some countBuf => if countBuf = [0] then none else some pos2
            | none => some (B.length - 1)
          else some pos2
        match afterZeroCheck with
        | none => .ok data
        | some pos3 =>
          match readExact B pos3 1 with
          | none => .ok data
          | some countBuf =>
            let seed := leFromBytes seedBuf
            let eigenvalueCount := leFromBytes countBuf
            if eigenvalueCount = 0 then .ok data
            else
              match readEigenvaluesGo B (pos3 + 1) eigenvalueCount with
              | none => .ok data
              | some eigenvalues =>
                scanReadDataGo B fuel (pos3 + 1 + 8 * eigenvalueCount)
                  (data ++ [(seed, eigenvalues)])

/-- `reader::scan_read_data`, starting after the 18-byte header. -/
def scanReadData (B : List Nat) : Except StorageError (List (Nat × List Nat)) :=
  scanReadDataGo B (B.length + 1) 18 []

/-- `reader::read_append_file`: validate the magic header, read the
`(model, dim, steps)` parameters, then read the records through the fast path
when a footer is present and through the scan path otherwise.  Files shorter
than the 35 bytes of header plus footer yield an empty record set. -/
def readAppendFile (B : List Nat) :
    Except StorageError (List (Nat × List Nat) × Nat × Nat × Nat) :=
  match readExact B 0 12 with
  | none => .error .eof
  | some magicBuf =>
    if magicBuf ≠ MAGIC_HEADER then
      .error (.invalidData "File format error: magic header mismatch")
    else
      match readExact B 12 1, readExact B 13 1, readExact B 14 4 with
      | some modelBuf, some dimBuf, some stepsBuf =>
        let model := leFromBytes modelBuf
        let dim := leFromBytes dimBuf
        let steps := leFromBytes stepsBuf
        if B.length < 18 + 8 + 8 + 1 then .ok ([], model, dim, steps)
        else
          match readFileMetadata B with
          | some (totalCount, eigenvaluesPerRun) =>
            match readWithMetadata B totalCount eigenvaluesPerRun with
            | .error e => .error e
            | .ok data => .ok (data, model, dim, steps)
          | none =>
            match scanReadData B with
            | .error e => .error e
            | .ok data => .ok (data, model, dim, steps)
      | _, _, _ => .error .eof

/-! ## Writer (`data_storage::writer::AppendOnlyWriter`) -/

/-- The writer state: the bytes of the file it owns (buffered writes included,
since every theorem below observes the file only after a flush point), the
number of records written, the established per-record eigenvalue count, and
the `(model, dim, steps)` parameters. -/
structure AppendOnlyWriter where
  file : List Nat
  writtenCount : Nat
  eigenvaluesPerRun : Option Nat
  model : Nat
  dim : Nat
  steps : Nat
deriving DecidableEq, Repr

/-- The 18-byte header `magic[12] | model[1] | dim[1] | steps[4]` that
`with_expected_size` writes into a fresh file. -/
def headerBytes (model dim steps : Nat) : List Nat :=
  MAGIC_HEADER ++ [model] ++ [dim] ++ u32le steps

/-- The fresh-file branch of `AppendOnlyWriter::with_expected_size`: create
the file, write the header, start with no records and no established count.
(File pre-allocation is disabled in the source.) -/
def AppendOnlyWriter.fresh (model dim steps : Nat) : AppendOnlyWriter :=
  ⟨headerBytes model dim steps, 0, none, model, dim, steps⟩

/-- `AppendOnlyWriter::append_eigenvalues`: reject more than 255 values;
establish the per-record count on first use; reject a count differing from
the established one; otherwise append
`seed[4 LE] | count[1] | values[count * 8 LE]`.  Both error returns happen
before any `write_all`, so the file is untouched on error. -/
def AppendOnlyWriter.appendEigenvalues (w : AppendOnlyWriter) (seed : Nat)
    (eigenvalues : List Nat) : AppendOnlyWriter × Except StorageError Unit :=
  if eigenvalues.length > 255 then
    (w, .error (.invalidData "Too many eigenvalues"))
  else
    let expectedLen := w.eigenvaluesPerRun.getD eigenvalues.length
    if eigenvalues.length ≠ expectedLen then
      (w, .error (.invalidData "Eigenvalue count mismatch"))
    else
      (⟨w.file ++ u32le seed ++ [eigenvalues.length % 256] ++ (eigenvalues.map u64le).flatten,
        w.writtenCount + 1, some expectedLen, w.model, w.dim, w.steps⟩, .ok ())

/-- `AppendOnlyWriter::finish`: flush, write `EOF_MARKER` and the `u64` total
count, then the established eigenvalue count as one byte (`0` when no record
was ever written).  On the (unreachable from `append_eigenvalues`) error path
the marker and count bytes have already been written and still reach the file
when the buffered writer is dropped. -/
def AppendOnlyWriter.finish (w : AppendOnlyWriter) : List Nat × Except StorageError Unit :=
  let flushed := w.file ++ EOF_MARKER ++ u64le w.writtenCount
  match w.eigenvaluesPerRun with
  | some eigenvaluesPerRun =>
    if eigenvaluesPerRun > 255 then
      (flushed, .error (.invalidData "Too many eigenvalues per run"))
    else (flushed ++ [eigenvaluesPerRun], .ok ())
  | none => (flushed ++ [0], .ok ())

/-- `AppendOnlyWriter::remove_eof_marker`: when the file is at least
`18 + 17` bytes long and the 8 bytes at offset `len - 17` equal `EOF_MARKER`,
truncate the trailing 17 footer bytes; otherwise leave the file alone. -/
def removeEofMarker (B : List Nat) : List Nat :=
  if 18 + 17 ≤ B.length ∧ byteSlice B (B.length - 17) 8 = EOF_MARKER then
    B.take (B.length - 17)
  else B

/-- The existing-file branch of `AppendOnlyWriter::with_expected_size`:
read the file; on success check `(model, dim, steps)` against the header
(hard errors on mismatch) and adopt the record count and first record's
eigenvalue count; on a magic-header mismatch delete and recreate the file;
on any other read error keep the file and append tolerantly.  In the
non-recreate branches the only byte mutation is `remove_eof_marker`. -/
def withExpectedSizeExisting (B : List Nat) (model dim steps : Nat) :
    Except StorageError (List Nat × AppendOnlyWriter) :=
  match readAppendFile B with
  | .ok (existingData, fileModel, fileDim, fileSteps) =>
    if fileModel ≠ model then .error (.invalidData "Model mismatch")
    else if fileDim ≠ dim then .error (.invalidData "Dimension mismatch")
    else if fileSteps ≠ steps then .error (.invalidData "Steps mismatch")
    else
      let stripped := removeEofMarker B
      .ok (stripped,
        ⟨stripped, existingData.length, existingData.head?.map (fun r => r.2.length),
         model, dim, steps⟩)
  | .error e =>
    if e = .invalidData "File format error: magic header mismatch" then
      let w := AppendOnlyWriter.fresh model dim steps
      .ok (w.file, w)
    else
      let stripped := removeEofMarker B
      .ok (stripped, ⟨stripped, 0, none, model, dim, steps⟩)

/-- A sequence of `append_eigenvalues` calls, stopping at the first error:
the writer lifecycle between creation and `finish`. -/
def appendAll (w : AppendOnlyWriter) :
    List (Nat × List Nat) → AppendOnlyWriter × Except StorageError Unit
  | [] => (w, .ok ())
  | r :: rs =>
    match w.appendEigenvalues r.1 r.2 with
    | (w', .ok _) => appendAll w' rs
    | (w', .error e) => (w', .error e)

/-! ## Progress planner (`data_storage::progress`) -/

/-- `progress::check_append_progress`.  `fileExists` models
`path.as_ref().exists()`; `B` is the file's bytes when it exists.  Every
`read_append_file` error — the magic-header mismatch included — is absorbed
into `Ok((0, []))`; only the parameter checks on a successfully read file
are surfaced. -/
def checkAppendProgress (fileExists : Bool) (B : List Nat)
    (expectedModel expectedDim expectedSteps : Nat) :
    Except StorageError (Nat × List Nat) :=
  if !fileExists then .ok (0, [])
  else
    match readAppendFile B with
    | .ok (data, fileModel, fileDim, fileSteps) =>
      if fileModel ≠ expectedModel then .error (.invalidData "Model mismatch")
      else if fileDim ≠ expectedDim then .error (.invalidData "Dimension mismatch")
      else if fileSteps ≠ expectedSteps then .error (.invalidData "Steps mismatch")
      else .ok (data.length, data.map (fun r => r.1))
    | .error _ => .ok (0, [])

example :
    ((AppendOnlyWriter.fresh 1 2 3).appendEigenvalues 1 [5]).2 = .ok () := by decide
example :
    (((AppendOnlyWriter.fresh 1 2 3).appendEigenvalues 1 [5]).1.finish).2 = .ok () := by
  decide
example :
    readAppendFile (((AppendOnlyWriter.fresh 1 2 3).appendEigenvalues 1 [5]).1.finish).1 =
      .ok ([(1, [5])], 1, 2, 3) := by decide
example :
    readAppendFile (headerBytes 1 2 3 ++ u32le 1 ++ [1] ++ u64le 5) =
      .ok ([], 1, 2, 3) := by decide
example :
    readAppendFile (headerBytes 1 2 3 ++ u32le 1 ++ [2] ++ u64le 5 ++ u64le 6 ++
        u32le 2 ++ [2] ++ u64le 7 ++ u64le 8 ++ [9, 9, 9]) =
      .ok ([(1, [5, 6]), (2, [7, 8])], 1, 2, 3) := by decide

/-! ## Lemmas about the ULEB128 codec -/

theorem uleb128EncodeGo_fuel {f1 f2 v : Nat} (h1 : v < f1) (h2 : v < f2) :
    uleb128EncodeGo f1 v = uleb128EncodeGo f2 v := by
  induction f1 generalizing f2 v with
  | zero => omega
  | succ f1 ih =>
    cases f2 with
    | zero => omega
    | succ f2 =>
      simp only [uleb128EncodeGo]
      by_cases hr : v / 128 = 0
      · simp [hr]
      · have hlt : v / 128 < v := Nat.div_lt_self (by omega) (by omega)
        have hrec : uleb128EncodeGo f1 (v / 128) = uleb128EncodeGo f2 (v / 128) :=
          ih (by omega) (by omega)
        simp only [hr, if_false, hrec]

/-- One-step unfolding of `uleb128Encode`, matching the source loop. -/
theorem uleb128Encode_eq (v : Nat) :
    uleb128Encode v =
      if v / 128 = 0 then [v % 128] else (v % 128 + 128) :: uleb128Encode (v / 128) := by
  show uleb128EncodeGo (v + 1) v = _
  simp only [uleb128EncodeGo]
  by_cases hr : v / 128 = 0
  · simp [hr]
  · have hlt : v / 128 < v := Nat.div_lt_self (by omega) (by omega)
    have hrec : uleb128EncodeGo v (v / 128) = uleb128EncodeGo (v / 128 + 1) (v / 128) :=
      uleb128EncodeGo_fuel (by omega) (Nat.lt_succ_self _)
    simp only [hr, if_false, hrec]
    rfl

theorem uleb128SizeGo_fuel {f1 f2 v : Nat} (h1 : v < f1) (h2 : v < f2) :
    uleb128SizeGo f1 v = uleb128SizeGo f2 v := by
  induction f1 generalizing f2 v with
  | zero => omega
  | succ f1 ih =>
    cases f2 with
    | zero => omega
    | succ f2 =>
      simp only [uleb128SizeGo]
      by_cases hr : v = 0
      · simp [hr]
      · have hlt : v / 128 < v := Nat.div_lt_self (by omega) (by omega)
        have hrec : uleb128SizeGo f1 (v / 128) = uleb128SizeGo f2 (v / 128) :=
          ih (by omega) (by omega)
        simp only [hr, if_false, hrec]

theorem uleb128SizeGo_zero {f : Nat} (h : 0 < f) : uleb128SizeGo f 0 = 0 := by
  cases f with
  | zero => omega
  | succ f => simp [uleb128SizeGo]

/-- `encoded_size` equals the length `encode` produces. -/
theorem uleb128EncodedSize_eq_length (v : Nat) :
    uleb128EncodedSize v = (uleb128Encode v).length := by
  induction v using Nat.strong_induction_on with
  | _ v ih =>
    by_cases h0 : v = 0
    · subst h0
      decide
    · rw [uleb128Encode_eq]
      by_cases hr : v / 128 = 0
      · simp only [hr, if_true, List.length_singleton]
        unfold uleb128EncodedSize
        rw [if_neg h0]
        simp only [uleb128SizeGo]
        rw [if_neg h0, hr, uleb128SizeGo_zero (by omega)]
      · have hlt : v / 128 < v := Nat.div_lt_self (by omega) (by omega)
        have hrec := ih (v / 128) hlt
        simp only [hr, if_false, List.length_cons]
        unfold uleb128EncodedSize
        rw [if_neg h0]
        simp only [uleb128SizeGo]
        rw [if_neg h0,
          uleb128SizeGo_fuel (show v / 128 < v from hlt)
            (show v / 128 < v / 128 + 1 by omega)]
        have h2 : uleb128EncodedSize (v / 128) = uleb128SizeGo (v / 128 + 1) (v / 128) := by
          unfold uleb128EncodedSize
          rw [if_neg hr]
        omega

theorem uleb128Encode_length_pos (v : Nat) : 1 ≤ (uleb128Encode v).length := by
  rw [uleb128Encode_eq]
  by_cases hr : v / 128 = 0 <;> simp [hr]

/-- Upper bound: the encoded value is below `128 ^ length`. -/
theorem uleb128Encode_lt (v : Nat) : v < 128 ^ (uleb128Encode v).length := by
  induction v using Nat.strong_induction_on with
  | _ v ih =>
    rw [uleb128Encode_eq]
    by_cases hr : v / 128 = 0
    · simp only [hr, if_true, List.length_singleton]
      omega
    · have hlt : v / 128 < v := Nat.div_lt_self (by omega) (by omega)
      have hrec := ih (v / 128) hlt
      simp only [hr, if_false, List.length_cons]
      have hpow : 128 ^ ((uleb128Encode (v / 128)).length + 1) =
          128 * 128 ^ (uleb128Encode (v / 128)).length := by ring
      rw [hpow]
      omega

/-- Minimality: a multi-byte encoding is produced only for values that need
it. -/
theorem uleb128Encode_min (v : Nat) :
    (uleb128Encode v).length = 1 ∨ 128 ^ ((uleb128Encode v).length - 1) ≤ v := by
  induction v using Nat.strong_induction_on with
  | _ v ih =>
    rw [uleb128Encode_eq]
    by_cases hr : v / 128 = 0
    · simp [hr]
    · have hlt : v / 128 < v := Nat.div_lt_self (by omega) (by omega)
      have hrec := ih (v / 128) hlt
      have hpos := uleb128Encode_length_pos (v / 128)
      right
      simp only [hr, if_false, List.length_cons, Nat.add_sub_cancel]
      rcases hrec with h1 | hmin
      · rw [h1]
        simp only [pow_one]
        omega
      · calc 128 ^ (uleb128Encode (v / 128)).length
            = 128 * 128 ^ ((uleb128Encode (v / 128)).length - 1) := by
              rw [← pow_succ']
              congr 1
              omega
          _ ≤ 128 * (v / 128) := by omega
          _ ≤ v := by omega

theorem uleb128Encode_length_le (v : Nat) (hv : v < 2 ^ 32) :
    (uleb128Encode v).length ≤ 5 := by
  rcases uleb128Encode_min v with h1 | hmin
  · omega
  · by_contra hgt
    have h5 : (128 : Nat) ^ 5 ≤ 128 ^ ((uleb128Encode v).length - 1) :=
      Nat.pow_le_pow_right (by omega) (by omega)
    have h6 : (34359738368 : Nat) ≤ v := by
      calc (34359738368 : Nat) = 128 ^ 5 := by norm_num
        _ ≤ 128 ^ ((uleb128Encode v).length - 1) := h5
        _ ≤ v := hmin
    omega

/-- Decoding an encoded value from an intermediate loop state: with
`bytesRead = br`, `shift = 7 * br` and accumulator `r`, decoding
`uleb128Encode v` adds `v * 2 ^ (7 * br)` to the accumulator and consumes
exactly the encoding's bytes. -/
theorem uleb128DecodeGo_encode (v : Nat) :
    ∀ r br, br ≤ 4 → v < 2 ^ (32 - 7 * br) →
    uleb128DecodeGo (uleb128Encode v) r (7 * br) br =
      .ok (r + v * 2 ^ (7 * br), br + (uleb128Encode v).length) := by
  induction v using Nat.strong_induction_on with
  | _ v ih =>
    intro r br hbr hv
    rw [uleb128Encode_eq]
    by_cases h0 : v / 128 = 0
    · have hvlt : v < 128 := by omega
      simp only [h0, if_true, List.length_singleton, uleb128DecodeGo]
      rw [if_neg (by omega : ¬ br + 1 > 5), if_neg (by omega : ¬ 7 * br ≥ 32)]
      have hcond : ¬ (7 * br = 28 ∧ v % 128 % 128 > 0x0F) := by
        by_cases hb4 : br = 4
        · subst hb4
          norm_num at hv
          omega
        · omega
      rw [if_neg hcond, if_pos (by omega : v % 128 % 256 < 128)]
      have hm : v % 128 = v := by omega
      simp only [hm]
    · have hge : 128 ≤ v := by omega
      have hlt : v / 128 < v := Nat.div_lt_self (by omega) (by omega)
      have hbr3 : br ≤ 3 := by
        by_cases hb4 : br = 4
        · subst hb4
          norm_num at hv
          omega
        · omega
      simp only [h0, if_false, List.length_cons, uleb128DecodeGo]
      rw [if_neg (by omega : ¬ br + 1 > 5), if_neg (by omega : ¬ 7 * br ≥ 32),
        if_neg (by omega : ¬ (7 * br = 28 ∧ (v % 128 + 128) % 128 > 0x0F)),
        if_neg (by omega : ¬ (v % 128 + 128) % 256 < 128)]
      have hb : (v % 128 + 128) % 128 = v % 128 := by omega
      rw [hb]
      have hshift : 7 * br + 7 = 7 * (br + 1) := by ring
      rw [hshift]
      have hv' : v / 128 < 2 ^ (32 - 7 * (br + 1)) := by
        have hkey : 32 - 7 * br = 32 - 7 * (br + 1) + 7 := by omega
        rw [Nat.div_lt_iff_lt_mul (by norm_num : (0:Nat) < 128)]
        calc v < 2 ^ (32 - 7 * br) := hv
          _ = 2 ^ (32 - 7 * (br + 1)) * 2 ^ 7 := by rw [hkey, pow_add]
          _ = 2 ^ (32 - 7 * (br + 1)) * 128 := by norm_num
      rw [ih (v / 128) hlt (r + v % 128 * 2 ^ (7 * br)) (br + 1) (by omega) hv']
      have hA : (2:Nat) ^ (7 * (br + 1)) = 2 ^ (7 * br) * 128 := by
        rw [show 7 * (br + 1) = 7 * br + 7 by ring, pow_add]
        norm_num
      have hacc : r + v % 128 * 2 ^ (7 * br) + v / 128 * 2 ^ (7 * (br + 1)) =
          r + v * 2 ^ (7 * br) := by
        rw [hA]
        have hsplit : v % 128 + 128 * (v / 128) = v := Nat.mod_add_div v 128
        calc r + v % 128 * 2 ^ (7 * br) + v / 128 * (2 ^ (7 * br) * 128)
            = r + (v % 128 + 128 * (v / 128)) * 2 ^ (7 * br) := by ring
          _ = r + v * 2 ^ (7 * br) := by rw [hsplit]
      rw [hacc]
      have hlen : br + 1 + (uleb128Encode (v / 128)).length =
          br + ((uleb128Encode (v / 128)).length + 1) := by omega
      rw [hlen]

/-- Decoding an encoding recovers the value and the encoded length. -/
theorem uleb128Decode_encode (v : Nat) (hv : v < 2 ^ 32) :
    uleb128Decode (uleb128Encode v) = .ok (v, (uleb128Encode v).length) := by
  have h := uleb128DecodeGo_encode v 0 0 (by omega) (by norm_num; omega)
  simpa [uleb128Decode] using h

/-- How `read_from_reader` presents a `decode` outcome: identical on success
and on `ValueTooLarge`; a truncated stream surfaces as the `read_exact` I/O
error instead of `IncompleteEncoding`; a sixth byte trips the streaming
loop's `shift >= 32` guard (`ValueTooLarge`) before its `bytes_read > 5`
guard, so `EncodingTooLong` becomes `ValueTooLarge`. -/
def streamedUlebResult : Except Uleb128Error (Nat × Nat) → Except Uleb128Error Nat
  | .ok (v, _) => .ok v
  | .error .incompleteEncoding => .error (.ioError "failed to fill whole buffer")
  | .error .encodingTooLong => .error .valueTooLarge
  | .error e => .error e

theorem readFromReaderGo_eq_decodeGo (l : List Nat) :
    ∀ r br, readFromReaderGo l r (7 * br) br =
      streamedUlebResult (uleb128DecodeGo l r (7 * br) br) := by
  induction l with
  | nil => intro r br; rfl
  | cons b rest ih =>
    intro r br
    simp only [uleb128DecodeGo, readFromReaderGo]
    by_cases h5 : br + 1 > 5
    · simp only [if_pos h5, if_pos (show 7 * br ≥ 32 by omega)]
      rfl
    · simp only [if_neg h5, if_neg (show ¬ 7 * br ≥ 32 by omega)]
      by_cases h28 : 7 * br = 28 ∧ b % 128 > 0x0F
      · simp only [if_pos h28]
        rfl
      · simp only [if_neg h28]
        by_cases hc : b % 256 < 128
        · simp only [if_pos hc]
          rfl
        · simp only [if_neg hc]
          rw [show 7 * br + 7 = 7 * (br + 1) by ring]
          exact ih _ (br + 1)

/-- C7 (amended): the streaming varint decoder agrees with the slice decoder
on every decoded value, but maps the failure classes through
`streamedUlebResult`: truncation becomes an I/O error (not
`IncompleteEncoding`) and an over-long encoding becomes `ValueTooLarge`
(not `EncodingTooLong`). -/
theorem readFromReader_eq_streamed_decode (bytes : List Nat) :
    readFromReader bytes = streamedUlebResult (uleb128Decode bytes) :=
  readFromReaderGo_eq_decodeGo bytes 0 0

/-- C7 counterexample: on the one-byte stream `[0x80]` the slice decoder
fails with `IncompleteEncoding` while the streaming decoder fails with an
I/O error, and on a six-byte encoding the slice decoder fails with
`EncodingTooLong` while the streaming decoder fails with `ValueTooLarge`;
the two never agree on these error classes. -/
theorem readFromReader_error_class_counterexample :
    uleb128Decode [0x80] = .error .incompleteEncoding ∧
    readFromReader [0x80] = .error (.ioError "failed to fill whole buffer") ∧
    Uleb128Error.ioError "failed to fill whole buffer" ≠ Uleb128Error.incompleteEncoding ∧
    uleb128Decode [0x80, 0x80, 0x80, 0x80, 0x80, 0x00] = .error .encodingTooLong ∧
    readFromReader [0x80, 0x80, 0x80, 0x80, 0x80, 0x00] = .error .valueTooLarge ∧
    Uleb128Error.valueTooLarge ≠ Uleb128Error.encodingTooLong := by
  decide

/-- C9: for every `u32`, `encode` produces the minimal 1-to-5-byte ULEB128
encoding (`v < 128 ^ len`, and `128 ^ (len - 1) ≤ v` unless `len = 1`),
`decode (encode v)` returns the value with the number of bytes consumed, and
`encoded_size v` equals the encoding's length. -/
theorem uleb128_codec_boundaries (v : Nat) (hv : v < 2 ^ 32) :
    uleb128Decode (uleb128Encode v) = .ok (v, (uleb128Encode v).length) ∧
    uleb128EncodedSize v = (uleb128Encode v).length ∧
    1 ≤ (uleb128Encode v).length ∧ (uleb128Encode v).length ≤ 5 ∧
    v < 128 ^ (uleb128Encode v).length ∧
    ((uleb128Encode v).length = 1 ∨ 128 ^ ((uleb128Encode v).length - 1) ≤ v) :=
  ⟨uleb128Decode_encode v hv, uleb128EncodedSize_eq_length v, uleb128Encode_length_pos v,
   uleb128Encode_length_le v hv, uleb128Encode_lt v, uleb128Encode_min v⟩

/-- Witness for C9 at the boundary value `u32::MAX`. -/
theorem uleb128_codec_boundaries_witness :
    (4294967295 : Nat) < 2 ^ 32 ∧
    (uleb128Decode (uleb128Encode 4294967295) =
        .ok (4294967295, (uleb128Encode 4294967295).length) ∧
      uleb128EncodedSize 4294967295 = (uleb128Encode 4294967295).length ∧
      1 ≤ (uleb128Encode 4294967295).length ∧ (uleb128Encode 4294967295).length ≤ 5 ∧
      4294967295 < 128 ^ (uleb128Encode 4294967295).length ∧
      ((uleb128Encode 4294967295).length = 1 ∨
        128 ^ ((uleb128Encode 4294967295).length - 1) ≤ 4294967295)) :=
  ⟨by norm_num, uleb128_codec_boundaries 4294967295 (by norm_num)⟩

example : uleb128Decode (uleb128Encode 0) = .ok (0, 1) := by decide
example : uleb128Decode (uleb128Encode 127) = .ok (127, 1) := by decide
example : uleb128Decode (uleb128Encode 128) = .ok (128, 2) := by decide
example : uleb128Decode (uleb128Encode 16383) = .ok (16383, 2) := by decide
example : uleb128Decode (uleb128Encode 16384) = .ok (16384, 3) := by decide
example : uleb128Decode (uleb128Encode 2097151) = .ok (2097151, 3) := by decide
example : uleb128Decode (uleb128Encode 2097152) = .ok (2097152, 4) := by decide
example : uleb128Decode (uleb128Encode 268435455) = .ok (268435455, 4) := by decide
example : uleb128Decode (uleb128Encode 268435456) = .ok (268435456, 5) := by decide
example : uleb128Decode (uleb128Encode 4294967295) = .ok (4294967295, 5) := by decide
example : uleb128EncodedSize 268435456 = (uleb128Encode 268435456).length := by decide

/-! ## Lemmas about the expected-file-size accounting -/

/-- The ULEB128 size of a value in the band `[128 ^ (k - 1), 128 ^ k)` is
`k`. -/
theorem uleb128EncodedSize_band (v k : Nat) (hk : 1 ≤ k)
    (h1 : 128 ^ (k - 1) ≤ v) (h2 : v < 128 ^ k) : uleb128EncodedSize v = k := by
  rw [uleb128EncodedSize_eq_length]
  have hlt := uleb128Encode_lt v
  have hmin := uleb128Encode_min v
  have hpos := uleb128Encode_length_pos v
  by_contra hne
  rcases Nat.lt_or_ge (uleb128Encode v).length k with hl | hl
  · have hle : (128:Nat) ^ (uleb128Encode v).length ≤ 128 ^ (k - 1) :=
      Nat.pow_le_pow_right (by omega) (by omega)
    omega
  · have hgt : k < (uleb128Encode v).length := by omega
    rcases hmin with h1' | hmin'
    · omega
    · have hle : (128:Nat) ^ k ≤ 128 ^ ((uleb128Encode v).length - 1) :=
        Nat.pow_le_pow_right (by omega) (by omega)
      omega

/-- Closed form of the band computation, for nonzero `n`. -/
theorem calculateTotalUleb128Size_closed (n : Nat) (h : 1 ≤ n) :
    calculateTotalUleb128Size n =
      min n 127 + (min (n - 127) 16256) * 2 + (min (n - 16383) 2080768) * 3 +
      (min (n - 2097151) 266338304) * 4 + (n - 268435455) * 5 := by
  simp only [calculateTotalUleb128Size]
  rw [if_neg (by omega : ¬ n = 0), if_pos (by omega : n ≥ 1)]
  rcases (by omega : n ≤ 127 ∨ (128 ≤ n ∧ n ≤ 16383) ∨ (16384 ≤ n ∧ n ≤ 2097151) ∨
      (2097152 ≤ n ∧ n ≤ 268435455) ∨ 268435456 ≤ n) with h' | h' | h' | h' | h'
  · rw [if_neg (by omega : ¬ n - 127 > 0),
      if_neg (by omega : ¬ n - 127 - (16383 - 127) > 0),
      if_neg (by omega : ¬ n - 127 - (16383 - 127) - (2097151 - 16383) > 0),
      if_neg (by omega :
        ¬ n - 127 - (16383 - 127) - (2097151 - 16383) - (268435455 - 2097151) > 0)]
    omega
  · rw [if_pos (by omega : n - 127 > 0),
      if_neg (by omega : ¬ n - 127 - (16383 - 127) > 0),
      if_neg (by omega : ¬ n - 127 - (16383 - 127) - (2097151 - 16383) > 0),
      if_neg (by omega :
        ¬ n - 127 - (16383 - 127) - (2097151 - 16383) - (268435455 - 2097151) > 0)]
    omega
  · rw [if_pos (by omega : n - 127 > 0),
      if_pos (by omega : n - 127 - (16383 - 127) > 0),
      if_neg (by omega : ¬ n - 127 - (16383 - 127) - (2097151 - 16383) > 0),
      if_neg (by omega :
        ¬ n - 127 - (16383 - 127) - (2097151 - 16383) - (268435455 - 2097151) > 0)]
    omega
  · rw [if_pos (by omega : n - 127 > 0),
      if_pos (by omega : n - 127 - (16383 - 127) > 0),
      if_pos (by omega : n - 127 - (16383 - 127) - (2097151 - 16383) > 0),
      if_neg (by omega :
        ¬ n - 127 - (16383 - 127) - (2097151 - 16383) - (268435455 - 2097151) > 0)]
    omega
  · rw [if_pos (by omega : n - 127 > 0),
      if_pos (by omega : n - 127 - (16383 - 127) > 0),
      if_pos (by omega : n - 127 - (16383 - 127) - (2097151 - 16383) > 0),
      if_pos (by omega :
        n - 127 - (16383 - 127) - (2097151 - 16383) - (268435455 - 2097151) > 0)]
    omega

/-- The band computation of `calculate_total_uleb128_size` really sums the
per-seed encoded sizes over `1 ..= n` (for `n` in the `u32` range). -/
theorem calculateTotalUleb128Size_eq_sum (n : Nat) (h1 : 1 ≤ n)
    (h2 : n ≤ 4294967295) :
    calculateTotalUleb128Size n = ∑ i in Finset.Icc 1 n, uleb128EncodedSize i := by
  induction n with
  | zero => omega
  | succ n ih =>
    by_cases hn : n = 0
    · subst hn
      decide
    · rw [Finset.sum_Icc_succ_top (show 1 ≤ n + 1 by omega),
        ← ih (by omega) (by omega),
        calculateTotalUleb128Size_closed (n + 1) (by omega),
        calculateTotalUleb128Size_closed n (by omega)]
      rcases (by omega :
          n + 1 ≤ 127 ∨ (128 ≤ n + 1 ∧ n + 1 ≤ 16383) ∨
          (16384 ≤ n + 1 ∧ n + 1 ≤ 2097151) ∨
          (2097152 ≤ n + 1 ∧ n + 1 ≤ 268435455) ∨ 268435456 ≤ n + 1)
        with h | h | h | h | h
      · rw [uleb128EncodedSize_band (n + 1) 1 (by norm_num) (by norm_num)
          (by norm_num; omega)]
        omega
      · rw [uleb128EncodedSize_band (n + 1) 2 (by norm_num) (by norm_num; omega)
          (by norm_num; omega)]
        omega
      · rw [uleb128EncodedSize_band (n + 1) 3 (by norm_num) (by norm_num; omega)
          (by norm_num; omega)]
        omega
      · rw [uleb128EncodedSize_band (n + 1) 4 (by norm_num) (by norm_num; omega)
          (by norm_num; omega)]
        omega
      · rw [uleb128EncodedSize_band (n + 1) 5 (by norm_num) (by norm_num; omega)
          (by norm_num; omega)]
        omega

/-- Each seed in the `u32` range encodes to at most 5 bytes. -/
theorem uleb128EncodedSize_le_five (i : Nat) (h : i ≤ 4294967295) :
    uleb128EncodedSize i ≤ 5 := by
  rw [uleb128EncodedSize_eq_length]
  exact uleb128Encode_length_le i (by norm_num; omega)

/-- C8 (amended): for `run_count` in `1 ..= u32::MAX` and a representable
`values_per_run` (at most 255, the format's record limit),
`calculate_expected_file_size` is the 18-byte header, plus the sum over
identifiers `1 ..= run_count` of each identifier's varint-encoded size, plus
`run_count * (1 + 8 * values_per_run)` for the count bytes and values, plus
the 17-byte footer. -/
theorem calculateExpectedFileSize_eq (numRuns eigenvaluesPerRun : Nat)
    (h1 : 1 ≤ numRuns) (h2 : numRuns ≤ 4294967295) (h3 : eigenvaluesPerRun ≤ 255) :
    calculateExpectedFileSize numRuns eigenvaluesPerRun =
      18 + (∑ i in Finset.Icc 1 numRuns, uleb128EncodedSize i) +
        numRuns * (1 + 8 * eigenvaluesPerRun) + 17 := by
  have hsum_le : (∑ i in Finset.Icc 1 numRuns, uleb128EncodedSize i) ≤ 5 * numRuns := by
    calc (∑ i in Finset.Icc 1 numRuns, uleb128EncodedSize i)
        ≤ ∑ _i in Finset.Icc 1 numRuns, 5 :=
          Finset.sum_le_sum (fun i hi => by
            have hi' := Finset.mem_Icc.mp hi
            exact uleb128EncodedSize_le_five i (by omega))
      _ = (Finset.Icc 1 numRuns).card * 5 := by rw [Finset.sum_const, smul_eq_mul]
      _ = numRuns * 5 := by rw [Nat.card_Icc]; omega
      _ = 5 * numRuns := by ring
  simp only [calculateExpectedFileSize]
  have hmod32 : numRuns % 2 ^ 32 = numRuns := Nat.mod_eq_of_lt (by norm_num; omega)
  rw [hmod32, calculateTotalUleb128Size_eq_sum numRuns h1 h2]
  have hML : MAGIC_HEADER.length = 12 := rfl
  have hEL : EOF_MARKER.length = 8 := rfl
  rw [hML, hEL]
  have h64 : (2 : Nat) ^ 64 = 18446744073709551616 := by norm_num
  rw [Nat.mod_eq_of_lt (by
    rw [h64]
    have hm : eigenvaluesPerRun * 8 * numRuns ≤ 255 * 8 * numRuns :=
      Nat.mul_le_mul_right numRuns (Nat.mul_le_mul_right 8 h3)
    omega)]
  ring

/-- C8 counterexample: at `run_count = 0` the function returns 36 — the
`calculate_total_uleb128_size` helper returns 1 for the value 0 — while the
claimed formula `18 + (empty sum) + 0 + 17` gives 35. -/
theorem calculateExpectedFileSize_zero_counterexample :
    calculateExpectedFileSize 0 1 = 36 ∧
    18 + (∑ i in Finset.Icc 1 0, uleb128EncodedSize i) + 0 * (1 + 8 * 1) + 17 = 35 ∧
    (36 : Nat) ≠ 35 := by
  refine ⟨by decide, ?_, by decide⟩
  rw [show Finset.Icc 1 0 = ∅ from Finset.Icc_eq_empty (by omega)]
  decide

/-- Witness for the amended C8 at `run_count = 300`, `values_per_run = 2`. -/
theorem calculateExpectedFileSize_eq_witness :
    (1 ≤ 300 ∧ 300 ≤ 4294967295 ∧ 2 ≤ 255) ∧
    calculateExpectedFileSize 300 2 =
      18 + (∑ i in Finset.Icc 1 300, uleb128EncodedSize i) + 300 * (1 + 8 * 2) + 17 :=
  ⟨⟨by norm_num, by norm_num, by norm_num⟩,
    calculateExpectedFileSize_eq 300 2 (by norm_num) (by norm_num) (by norm_num)⟩

/-! ## Byte-level lemmas -/

theorem u32le_length (n : Nat) : (u32le n).length = 4 := rfl

theorem u64le_length (n : Nat) : (u64le n).length = 8 := rfl

theorem leFromBytes_singleton (b : Nat) : leFromBytes [b] = b := by
  simp [leFromBytes]

theorem leFromBytes_u32le (n : Nat) (h : n < 2 ^ 32) : leFromBytes (u32le n) = n := by
  simp only [leFromBytes, u32le, List.foldr]
  norm_num
  omega

theorem leFromBytes_u64le (n : Nat) (h : n < 2 ^ 64) : leFromBytes (u64le n) = n := by
  simp only [leFromBytes, u64le, List.foldr]
  norm_num
  omega

/-- `u32le` is injective on the `u32` range (via the round trip). -/
theorem u32le_inj {m n : Nat} (hm : m < 2 ^ 32) (hn : n < 2 ^ 32)
    (h : u32le m = u32le n) : m = n := by
  have := congrArg leFromBytes h
  rwa [leFromBytes_u32le m hm, leFromBytes_u32le n hn] at this

theorem readExact_some (B X Y : List Nat) (pos k : Nat) (hpos : pos ≤ B.length)
    (hdrop : B.drop pos = X ++ Y) (hX : X.length = k) : readExact B pos k = some X := by
  have hlen : (B.drop pos).length = X.length + Y.length := by
    rw [hdrop, List.length_append]
  rw [List.length_drop] at hlen
  unfold readExact
  rw [if_pos (by omega), hdrop, ← hX, List.take_left]

theorem readExact_none (B : List Nat) (pos k : Nat) (h : B.length < pos + k) :
    readExact B pos k = none := by
  unfold readExact
  rw [if_neg (by omega)]

theorem drop_add (B : List Nat) (pos k : Nat) :
    B.drop (pos + k) = (B.drop pos).drop k := by
  rw [List.drop_drop]

/-- The bytes appended for one record:
`seed[4 LE] | count[1] | values[count * 8 LE]`. -/
def recordBytes (r : Nat × List Nat) : List Nat :=
  u32le r.1 ++ [r.2.length % 256] ++ (r.2.map u64le).flatten

theorem flatten_u64le_length (vs : List Nat) :
    ((vs.map u64le).flatten).length = 8 * vs.length := by
  induction vs with
  | nil => rfl
  | cons v vs ih =>
    simp only [List.map_cons, List.flatten_cons, List.length_append, ih, u64le,
      List.length_cons, List.length_nil]
    ring

theorem recordBytes_length (r : Nat × List Nat) :
    (recordBytes r).length = 5 + 8 * r.2.length := by
  simp only [recordBytes, List.length_append, u32le_length, List.length_singleton,
    flatten_u64le_length]

/-! ## Writer lifecycle lemmas -/

theorem appendEigenvalues_ok (w : AppendOnlyWriter) (seed : Nat) (vals : List Nat)
    (k : Nat) (hlen : vals.length = k) (hk : k ≤ 255)
    (hepr : w.eigenvaluesPerRun = none ∨ w.eigenvaluesPerRun = some k) :
    w.appendEigenvalues seed vals =
      (⟨w.file ++ recordBytes (seed, vals), w.writtenCount + 1, some k,
        w.model, w.dim, w.steps⟩, .ok ()) := by
  simp only [AppendOnlyWriter.appendEigenvalues]
  rw [if_neg (by omega : ¬ vals.length > 255)]
  rcases hepr with h | h <;>
    · rw [h]
      simp only [Option.getD_none, Option.getD_some]
      rw [if_neg (by omega)]
      simp only [recordBytes, List.append_assoc, hlen]

theorem appendAll_ok (rs : List (Nat × List Nat)) : ∀ (w : AppendOnlyWriter) (k : Nat),
    (∀ r ∈ rs, r.2.length = k) → k ≤ 255 →
    (w.eigenvaluesPerRun = none ∨ w.eigenvaluesPerRun = some k) →
    appendAll w rs =
      (⟨w.file ++ (rs.map recordBytes).flatten, w.writtenCount + rs.length,
        (if rs = [] then w.eigenvaluesPerRun else some k),
        w.model, w.dim, w.steps⟩, .ok ()) := by
  induction rs with
  | nil =>
    intro w k _ _ _
    simp [appendAll]
  | cons r rs ih =>
    intro w k hk hk255 hepr
    have hr : r.2.length = k := hk r (by simp)
    show (match w.appendEigenvalues r.1 r.2 with
      | (w', .ok _) => appendAll w' rs
      | (w', .error e) => (w', .error e)) = _
    rw [appendEigenvalues_ok w r.1 r.2 k hr hk255 hepr]
    show appendAll
        ⟨w.file ++ recordBytes (r.1, r.2), w.writtenCount + 1, some k,
          w.model, w.dim, w.steps⟩ rs = _
    rw [ih _ k (fun r' hr' => hk r' (by simp [hr'])) hk255 (Or.inr rfl)]
    simp only [List.map_cons, List.flatten_cons, List.append_assoc, List.length_cons]
    rw [if_neg (by simp : ¬ r :: rs = [])]
    congr 1
    by_cases hnil : rs = [] <;> simp [hnil]
    omega

/-! ## Fast-path reader lemmas -/

theorem readEigenvaluesGo_encoded (vs : List Nat) : ∀ (B Y : List Nat) (pos : Nat),
    B.drop pos = (vs.map u64le).flatten ++ Y → (∀ v ∈ vs, v < 2 ^ 64) →
    readEigenvaluesGo B pos vs.length = some vs := by
  induction vs with
  | nil => intro B Y pos _ _; rfl
  | cons v vs ih =>
    intro B Y pos hdrop hv
    have hlen := congrArg List.length hdrop
    rw [List.length_drop, List.length_append, flatten_u64le_length] at hlen
    have hpos : pos ≤ B.length := by
      simp only [List.length_cons] at hlen
      omega
    have hdrop' : B.drop pos = u64le v ++ ((vs.map u64le).flatten ++ Y) := by
      simpa [List.append_assoc] using hdrop
    have hdrop8 : B.drop (pos + 8) = (vs.map u64le).flatten ++ Y := by
      rw [drop_add, hdrop', List.drop_left' (u64le_length v)]
    show readEigenvaluesGo B pos (vs.length + 1) = _
    simp only [readEigenvaluesGo]
    rw [readExact_some B (u64le v) ((vs.map u64le).flatten ++ Y) pos 8 hpos hdrop'
        (u64le_length v),
      ih B Y (pos + 8) hdrop8 (fun x hx => hv x (by simp [hx]))]
    show some (leFromBytes (u64le v) :: vs) = some (v :: vs)
    rw [leFromBytes_u64le v (hv v (by simp))]

theorem readWithMetadataGo_encoded (rs : List (Nat × List Nat)) :
    ∀ (B Y : List Nat) (acc : List (Nat × List Nat)) (pos k : Nat),
    B.drop pos = (rs.map recordBytes).flatten ++ Y →
    (∀ r ∈ rs, r.1 < 2 ^ 32 ∧ r.2.length = k ∧ ∀ v ∈ r.2, v < 2 ^ 64) →
    1 ≤ k → k ≤ 255 →
    readWithMetadataGo B k rs.length pos acc = .ok (acc ++ rs) := by
  induction rs with
  | nil =>
    intro B Y acc pos k _ _ _ _
    simp [readWithMetadataGo]
  | cons r rs ih =>
    intro B Y acc pos k hdrop hrs hk1 hk255
    obtain ⟨hseed, hrlen, hvals⟩ := hrs r (by simp)
    have hdrop0 : B.drop pos = u32le r.1 ++
        ([k % 256] ++ ((r.2.map u64le).flatten ++ ((rs.map recordBytes).flatten ++ Y))) := by
      simpa [recordBytes, hrlen, List.append_assoc] using hdrop
    have hlen := congrArg List.length hdrop0
    rw [List.length_drop] at hlen
    have hpos : pos ≤ B.length := by
      simp only [List.length_append, u32le_length, List.length_singleton] at hlen
      omega
    have hx1 : readExact B pos 4 = some (u32le r.1) :=
      readExact_some B _ _ pos 4 hpos hdrop0 (u32le_length r.1)
    have hdrop4 : B.drop (pos + 4) =
        [k % 256] ++ ((r.2.map u64le).flatten ++ ((rs.map recordBytes).flatten ++ Y)) := by
      rw [drop_add, hdrop0, List.drop_left' (u32le_length r.1)]
    have hlen4 := congrArg List.length hdrop4
    rw [List.length_drop] at hlen4
    have hpos4 : pos + 4 ≤ B.length := by
      simp only [List.length_append, List.length_singleton] at hlen4
      omega
    have hx2 : readExact B (pos + 4) 1 = some [k % 256] :=
      readExact_some B _ _ (pos + 4) 1 hpos4 hdrop4 rfl
    have hdrop5 : B.drop (pos + 5) =
        (r.2.map u64le).flatten ++ ((rs.map recordBytes).flatten ++ Y) := by
      rw [show pos + 5 = pos + 4 + 1 by omega, drop_add, hdrop4]
      rfl
    have hkmod : k % 256 = k := Nat.mod_eq_of_lt (by omega)
    have hcount : leFromBytes [k % 256] = k := by
      rw [leFromBytes_singleton, hkmod]
    have hvals' : readEigenvaluesGo B (pos + 5) k = some r.2 := by
      rw [← hrlen]
      exact readEigenvaluesGo_encoded r.2 B ((rs.map recordBytes).flatten ++ Y) (pos + 5)
        hdrop5 hvals
    have hdropNext : B.drop (pos + 5 + 8 * k) = (rs.map recordBytes).flatten ++ Y := by
      rw [drop_add, hdrop5,
        List.drop_left' (by rw [flatten_u64le_length, hrlen] : ((r.2.map u64le).flatten).length = 8 * k)]
    show readWithMetadataGo B k (rs.length + 1) pos acc = _
    simp only [readWithMetadataGo, hx1, hx2, hcount]
    rw [if_neg (by omega : ¬ k = 0), if_neg (by omega : ¬ k ≠ k)]
    simp only [hvals']
    rw [leFromBytes_u32le r.1 hseed,
      ih B Y (acc ++ [(r.1, r.2)]) (pos + 5 + 8 * k) k hdropNext
        (fun r' h' => hrs r' (by simp [h'])) hk1 hk255]
    simp

theorem headerBytes_length (m d s : Nat) : (headerBytes m d s).length = 18 := by
  simp [headerBytes, MAGIC_HEADER, u32le]

/-- Reading a finalized file: header, any list of complete records with a
common nonzero eigenvalue count, and the footer with the matching totals. -/
theorem readAppendFile_finalized (model dim steps n k : Nat)
    (rs : List (Nat × List Nat)) (B : List Nat)
    (hB : B = headerBytes model dim steps ++ (rs.map recordBytes).flatten ++
      (EOF_MARKER ++ u64le n ++ [k]))
    (hn : n = rs.length) (hn64 : n < 2 ^ 64) (hsteps : steps < 2 ^ 32)
    (hk255 : k ≤ 255) (hk1 : rs ≠ [] → 1 ≤ k)
    (hrs : ∀ r ∈ rs, r.1 < 2 ^ 32 ∧ r.2.length = k ∧ ∀ v ∈ r.2, v < 2 ^ 64) :
    readAppendFile B = .ok (rs, model, dim, steps) := by
  have hBassoc : B = MAGIC_HEADER ++ ([model] ++ ([dim] ++ (u32le steps ++
      ((rs.map recordBytes).flatten ++ (EOF_MARKER ++ (u64le n ++ [k])))))) := by
    simp [hB, headerBytes, List.append_assoc]
  have hBlen : B.length = 18 + ((rs.map recordBytes).flatten.length + 17) := by
    rw [hBassoc]
    simp [MAGIC_HEADER, EOF_MARKER, u32le, u64le]
    omega
  have hd0 : B.drop 0 = MAGIC_HEADER ++ ([model] ++ ([dim] ++ (u32le steps ++
      ((rs.map recordBytes).flatten ++ (EOF_MARKER ++ (u64le n ++ [k])))))) := by
    rw [List.drop_zero]
    exact hBassoc
  have hd12 : B.drop 12 = [model] ++ ([dim] ++ (u32le steps ++
      ((rs.map recordBytes).flatten ++ (EOF_MARKER ++ (u64le n ++ [k]))))) := by
    rw [hBassoc, List.drop_left' (by rfl : MAGIC_HEADER.length = 12)]
  have hd13 : B.drop 13 = [dim] ++ (u32le steps ++
      ((rs.map recordBytes).flatten ++ (EOF_MARKER ++ (u64le n ++ [k])))) := by
    rw [show (13 : Nat) = 12 + 1 by omega, drop_add, hd12,
      List.drop_left' (by rfl : List.length [model] = 1)]
  have hd14 : B.drop 14 = u32le steps ++
      ((rs.map recordBytes).flatten ++ (EOF_MARKER ++ (u64le n ++ [k]))) := by
    rw [show (14 : Nat) = 13 + 1 by omega, drop_add, hd13,
      List.drop_left' (by rfl : List.length [dim] = 1)]
  have hd18 : B.drop 18 = (rs.map recordBytes).flatten ++
      (EOF_MARKER ++ (u64le n ++ [k])) := by
    rw [show (18 : Nat) = 14 + 4 by omega, drop_add, hd14,
      List.drop_left' (u32le_length steps)]
  have hdL : B.drop (18 + (rs.map recordBytes).flatten.length) =
      EOF_MARKER ++ (u64le n ++ [k]) := by
    rw [drop_add, hd18, List.drop_left]
  have hx0 : readExact B 0 12 = some MAGIC_HEADER :=
    readExact_some B _ _ 0 12 (by omega) hd0 rfl
  have hx12 : readExact B 12 1 = some [model] :=
    readExact_some B _ _ 12 1 (by omega) hd12 rfl
  have hx13 : readExact B 13 1 = some [dim] :=
    readExact_some B _ _ 13 1 (by omega) hd13 rfl
  have hx14 : readExact B 14 4 = some (u32le steps) :=
    readExact_some B _ _ 14 4 (by omega) hd14 (u32le_length steps)
  have hslice17 : byteSlice B (B.length - 17) 8 = EOF_MARKER := by
    unfold byteSlice
    rw [show B.length - 17 = 18 + (rs.map recordBytes).flatten.length by omega, hdL,
      List.take_left' (by rfl : EOF_MARKER.length = 8)]
  have hd9 : B.drop (B.length - 9) = u64le n ++ [k] := by
    rw [show B.length - 9 = 18 + (rs.map recordBytes).flatten.length + 8 by omega,
      drop_add, hdL, List.drop_left' (by rfl : EOF_MARKER.length = 8)]
  have hd1 : B.drop (B.length - 1) = [k] := by
    rw [show B.length - 1 = (18 + (rs.map recordBytes).flatten.length + 8) + 8 by omega,
      drop_add, show (18 + (rs.map recordBytes).flatten.length + 8) = B.length - 9 by omega,
      hd9, List.drop_left' (u64le_length n)]
  have hmeta : readFileMetadata B = some (n, k) := by
    unfold readFileMetadata
    rw [show byteSlice B (B.length - 17) 8 = EOF_MARKER from hslice17, if_pos rfl]
    unfold byteSlice
    rw [hd9, List.take_left' (u64le_length n), hd1, leFromBytes_u64le n hn64]
    rw [show ([k].take 1) = [k] from rfl, leFromBytes_singleton]
  have hread : readWithMetadata B n k = .ok rs := by
    unfold readWithMetadata
    rw [hn]
    cases rs with
    | nil => simp [readWithMetadataGo]
    | cons r rs' =>
      have := readWithMetadataGo_encoded (r :: rs') B
        (EOF_MARKER ++ (u64le n ++ [k])) [] 18 k hd18 hrs (hk1 (by simp)) hk255
      simpa using this
  simp only [readAppendFile, hx0, hx12, hx13, hx14]
  rw [if_neg (by simp : ¬ MAGIC_HEADER ≠ MAGIC_HEADER)]
  rw [if_neg (by omega : ¬ B.length < 18 + 8 + 8 + 1)]
  simp only [hmeta, hread, leFromBytes_singleton, leFromBytes_u32le steps hsteps]

/-- C2 (amended): the full writer lifecycle (fresh file, appends, `finish`)
followed by `read_append_file` returns exactly the appended records — in
order, which implies equality as a multiset keyed by identifier — provided
every appended value list is nonempty (the shared length `k` is at least 1).
An appended empty value list breaks the round trip (see the C10 theorem). -/
theorem append_finish_roundtrip (model dim steps k : Nat) (rs : List (Nat × List Nat))
    (hsteps : steps < 2 ^ 32) (hk1 : 1 ≤ k) (hk255 : k ≤ 255)
    (hn64 : rs.length < 2 ^ 64)
    (hrs : ∀ r ∈ rs, r.1 < 2 ^ 32 ∧ r.2.length = k ∧ ∀ v ∈ r.2, v < 2 ^ 64) :
    ∃ w F, appendAll (AppendOnlyWriter.fresh model dim steps) rs = (w, .ok ()) ∧
      w.finish = (F, .ok ()) ∧
      readAppendFile F = .ok (rs, model, dim, steps) := by
  have happ := appendAll_ok rs (AppendOnlyWriter.fresh model dim steps) k
    (fun r hr => (hrs r hr).2.1) hk255 (Or.inl rfl)
  by_cases hnil : rs = []
  · subst hnil
    refine ⟨⟨headerBytes model dim steps, 0, none, model, dim, steps⟩,
      headerBytes model dim steps ++ EOF_MARKER ++ u64le 0 ++ [0], ?_, ?_, ?_⟩
    · simpa [AppendOnlyWriter.fresh] using happ
    · rfl
    · exact readAppendFile_finalized model dim steps 0 0 [] _
        (by simp [List.append_assoc]) rfl (by norm_num) hsteps (by norm_num)
        (fun h => absurd rfl h) (fun r hr => by simp at hr)
  · refine ⟨⟨headerBytes model dim steps ++ (rs.map recordBytes).flatten, rs.length,
      some k, model, dim, steps⟩,
      headerBytes model dim steps ++ (rs.map recordBytes).flatten ++ EOF_MARKER ++
        u64le rs.length ++ [k], ?_, ?_, ?_⟩
    · simpa [AppendOnlyWriter.fresh, hnil] using happ
    · simp only [AppendOnlyWriter.finish]
      rw [if_neg (by omega : ¬ k > 255)]
    · exact readAppendFile_finalized model dim steps rs.length k rs _
        (by simp [List.append_assoc]) rfl hn64 hsteps hk255 (fun _ => hk1) hrs

/-- Witness for the amended C2 at one record `(seed 1, values [5])`. -/
theorem append_finish_roundtrip_witness :
    ((3 : Nat) < 2 ^ 32 ∧ (1 : Nat) ≤ 1 ∧ (1 : Nat) ≤ 255 ∧
      ([((1 : Nat), [(5 : Nat)])].length : Nat) < 2 ^ 64) ∧
    ∃ w F, appendAll (AppendOnlyWriter.fresh 1 2 3) [(1, [5])] = (w, .ok ()) ∧
      w.finish = (F, .ok ()) ∧
      readAppendFile F = .ok ([(1, [5])], 1, 2, 3) :=
  ⟨⟨by norm_num, by norm_num, by norm_num, by norm_num⟩,
    append_finish_roundtrip 1 2 3 1 [(1, [5])] (by norm_num) (by norm_num) (by norm_num)
      (by norm_num) (by decide)⟩

/-- C2 counterexample: a lifecycle consisting of the single *successful*
append of an empty value list followed by a successful `finish` yields a file
that `read_append_file` rejects, so the round trip fails for this record
set. -/
theorem append_finish_roundtrip_counterexample :
    ((AppendOnlyWriter.fresh 1 2 3).appendEigenvalues 9 []).2 = .ok () ∧
    (((AppendOnlyWriter.fresh 1 2 3).appendEigenvalues 9 []).1.finish).2 = .ok () ∧
    readAppendFile (((AppendOnlyWriter.fresh 1 2 3).appendEigenvalues 9 []).1.finish).1 =
      .error (.invalidData "Invalid eigenvalue count: cannot be zero") := by
  decide

/-- C10: appending a record with an empty value list succeeds at the public
interface, `finish` succeeds and records `value_count` 0 as the footer's
final byte, yet `read_append_file` on the finalized file fails with the fast
path's zero-count `InvalidData` rejection — the record can be written but
the file cannot be read back. -/
theorem empty_record_unreadable :
    ((AppendOnlyWriter.fresh 5 2 100).appendEigenvalues 7 []).2 = .ok () ∧
    (((AppendOnlyWriter.fresh 5 2 100).appendEigenvalues 7 []).1.finish).2 = .ok () ∧
    ((((AppendOnlyWriter.fresh 5 2 100).appendEigenvalues 7 []).1.finish).1).getLast? =
      some 0 ∧
    readAppendFile (((AppendOnlyWriter.fresh 5 2 100).appendEigenvalues 7 []).1.finish).1 =
      .error (.invalidData "Invalid eigenvalue count: cannot be zero") := by
  decide

/-- C5: in the appending state, `append_eigenvalues` rejects a value list
longer than 255 entries, and a value list whose length differs from the
established per-record count; the error is returned before any write, so the
writer (and with it the file) is unchanged and the values are never
truncated or padded. -/
theorem appendEigenvalues_rejects (w : AppendOnlyWriter) (seed : Nat) (vals : List Nat)
    (h : vals.length > 255 ∨
      ∃ k, w.eigenvaluesPerRun = some k ∧ vals.length ≠ k) :
    (w.appendEigenvalues seed vals).1 = w ∧
    ∃ msg, (w.appendEigenvalues seed vals).2 = .error (.invalidData msg) := by
  unfold AppendOnlyWriter.appendEigenvalues
  rcases h with h | ⟨k, hk, hne⟩
  · rw [if_pos h]
    exact ⟨rfl, "Too many eigenvalues", rfl⟩
  · by_cases h255 : vals.length > 255
    · rw [if_pos h255]
      exact ⟨rfl, "Too many eigenvalues", rfl⟩
    · rw [if_neg h255, hk]
      simp only [Option.getD_some]
      rw [if_pos hne]
      exact ⟨rfl, "Eigenvalue count mismatch", rfl⟩

/-- Witness for C5: a writer with established count 2 rejects a 3-value
append and is left unchanged. -/
theorem appendEigenvalues_rejects_witness :
    (([0, 0, 0] : List Nat).length > 255 ∨
      ∃ k, (⟨headerBytes 1 2 3, 1, some 2, 1, 2, 3⟩ :
        AppendOnlyWriter).eigenvaluesPerRun = some k ∧ ([0, 0, 0] : List Nat).length ≠ k) ∧
    ((⟨headerBytes 1 2 3, 1, some 2, 1, 2, 3⟩ :
        AppendOnlyWriter).appendEigenvalues 4 [0, 0, 0]).1 =
      ⟨headerBytes 1 2 3, 1, some 2, 1, 2, 3⟩ ∧
    ∃ msg, ((⟨headerBytes 1 2 3, 1, some 2, 1, 2, 3⟩ :
        AppendOnlyWriter).appendEigenvalues 4 [0, 0, 0]).2 = .error (.invalidData msg) :=
  ⟨Or.inr ⟨2, rfl, by norm_num⟩,
    appendEigenvalues_rejects _ 4 [0, 0, 0] (Or.inr ⟨2, rfl, by norm_num⟩)⟩

/-- C4 (amended): `check_append_progress` absorbs *every* `read_append_file`
error — the magic-header format mismatch included — into the `Ok((0, []))`
start-over result; only the model/dim/steps checks on a successfully read
file are surfaced. -/
theorem checkAppendProgress_absorbs_read_errors (B : List Nat)
    (expectedModel expectedDim expectedSteps : Nat) (e : StorageError)
    (h : readAppendFile B = .error e) :
    checkAppendProgress true B expectedModel expectedDim expectedSteps = .ok (0, []) := by
  unfold checkAppendProgress
  simp [h]

/-- C4 counterexample: an existing, readable 35-byte file of zeros has a
wrong magic header, `read_append_file` reports the format mismatch, and yet
`check_append_progress` returns `Ok((0, []))` instead of surfacing it. -/
theorem checkAppendProgress_magic_counterexample :
    byteSlice (List.replicate 35 0) 0 12 ≠ MAGIC_HEADER ∧
    readAppendFile (List.replicate 35 0) =
      .error (.invalidData "File format error: magic header mismatch") ∧
    checkAppendProgress true (List.replicate 35 0) 1 2 3 = .ok (0, []) := by
  decide

/-- Witness for the amended C4 at a concrete bad-magic file. -/
theorem checkAppendProgress_absorbs_witness :
    readAppendFile (List.replicate 40 7) =
      .error (.invalidData "File format error: magic header mismatch") ∧
    checkAppendProgress true (List.replicate 40 7) 0 0 0 = .ok (0, []) :=
  ⟨by decide,
    checkAppendProgress_absorbs_read_errors (List.replicate 40 7) 0 0 0
      (.invalidData "File format error: magic header mismatch") (by decide)⟩

/-- C6: reopening an existing compatible file (one whose header parameters
match) succeeds, and the only mutation of the existing bytes is the
footer-stripping step: when the file is long enough and the 8 bytes at
offset `len - 17` are the footer marker, exactly the trailing 17 bytes are
truncated (the result is a prefix of the original, so the header and every
record byte are unchanged); otherwise the bytes are left untouched. -/
theorem withExpectedSizeExisting_frame (B : List Nat) (model dim steps : Nat)
    (data : List (Nat × List Nat))
    (h : readAppendFile B = .ok (data, model, dim, steps)) :
    withExpectedSizeExisting B model dim steps =
      .ok (removeEofMarker B,
        ⟨removeEofMarker B, data.length, data.head?.map (fun r => r.2.length),
          model, dim, steps⟩) ∧
    ((18 + 17 ≤ B.length ∧ byteSlice B (B.length - 17) 8 = EOF_MARKER) →
      removeEofMarker B = B.take (B.length - 17) ∧
      ∃ rest, removeEofMarker B ++ rest = B) ∧
    (¬ (18 + 17 ≤ B.length ∧ byteSlice B (B.length - 17) 8 = EOF_MARKER) →
      removeEofMarker B = B) := by
  refine ⟨?_, ?_, ?_⟩
  · unfold withExpectedSizeExisting
    rw [h]
    simp
  · intro hc
    unfold removeEofMarker
    rw [if_pos hc]
    exact ⟨rfl, B.drop (B.length - 17), List.take_append_drop _ B⟩
  · intro hc
    unfold removeEofMarker
    rw [if_neg hc]

/-- A concrete finalized sample file: header `(1, 2, 3)`, one record
`(seed 1, values [5])`, footer. -/
def sampleFinalizedFile : List Nat :=
  (((AppendOnlyWriter.fresh 1 2 3).appendEigenvalues 1 [5]).1.finish).1

/-- Witness for C6 at a concrete compatible finalized file. -/
theorem withExpectedSizeExisting_frame_witness :
    readAppendFile sampleFinalizedFile = .ok ([(1, [5])], 1, 2, 3) ∧
    (withExpectedSizeExisting sampleFinalizedFile 1 2 3 =
      .ok (removeEofMarker sampleFinalizedFile,
        ⟨removeEofMarker sampleFinalizedFile,
          ([((1 : Nat), [(5 : Nat)])] : List (Nat × List Nat)).length,
          ([((1 : Nat), [(5 : Nat)])] : List (Nat × List Nat)).head?.map
            (fun r => r.2.length), 1, 2, 3⟩) ∧
    ((18 + 17 ≤ sampleFinalizedFile.length ∧
        byteSlice sampleFinalizedFile (sampleFinalizedFile.length - 17) 8 = EOF_MARKER) →
      removeEofMarker sampleFinalizedFile =
        sampleFinalizedFile.take (sampleFinalizedFile.length - 17) ∧
      ∃ rest, removeEofMarker sampleFinalizedFile ++ rest = sampleFinalizedFile) ∧
    (¬ (18 + 17 ≤ sampleFinalizedFile.length ∧
        byteSlice sampleFinalizedFile (sampleFinalizedFile.length - 17) 8 = EOF_MARKER) →
      removeEofMarker sampleFinalizedFile = sampleFinalizedFile)) :=
  ⟨by decide,
    withExpectedSizeExisting_frame sampleFinalizedFile 1 2 3 [(1, [5])] (by decide)⟩

/-- C1 counterexample: at seed 300 the writer emits the fixed 4-byte
little-endian identifier `[44, 1, 0, 0]`, not the 2-byte ULEB128 encoding
`[172, 2]` the claimed varint layout would require. -/
theorem record_identifier_not_varint_counterexample :
    (((AppendOnlyWriter.fresh 1 2 3).appendEigenvalues 300 [5]).1).file =
      headerBytes 1 2 3 ++ [44, 1, 0, 0] ++ [1] ++ u64le 5 ∧
    uleb128Encode 300 = [172, 2] ∧
    (((AppendOnlyWriter.fresh 1 2 3).appendEigenvalues 300 [5]).1).file ≠
      headerBytes 1 2 3 ++ uleb128Encode 300 ++ [1] ++ u64le 5 := by
  decide

/-- C1 (amended): every record is laid out as
`identifier[4-byte LE u32] | value_count[1] | values[value_count * 8]`: a
successful append emits exactly these bytes, with a fixed 4-byte identifier
(the ULEB128 codec exists in the crate but is not used by the record
format). -/
theorem append_emits_fixed_u32_identifier (w : AppendOnlyWriter) (seed : Nat)
    (vals : List Nat) (k : Nat) (hlen : vals.length = k) (hk : k ≤ 255)
    (hepr : w.eigenvaluesPerRun = none ∨ w.eigenvaluesPerRun = some k) :
    (w.appendEigenvalues seed vals).1.file =
      w.file ++ u32le seed ++ [vals.length] ++ (vals.map u64le).flatten ∧
    (u32le seed).length = 4 := by
  rw [appendEigenvalues_ok w seed vals k hlen hk hepr]
  refine ⟨?_, u32le_length seed⟩
  show w.file ++ recordBytes (seed, vals) = _
  simp [recordBytes, hlen, Nat.mod_eq_of_lt (show k < 256 by omega), List.append_assoc]

/-- Witness for the amended C1 at seed 300. -/
theorem append_emits_fixed_u32_identifier_witness :
    (([(5 : Nat)] : List Nat).length = 1 ∧ (1 : Nat) ≤ 255 ∧
      ((AppendOnlyWriter.fresh 1 2 3).eigenvaluesPerRun = none ∨
        (AppendOnlyWriter.fresh 1 2 3).eigenvaluesPerRun = some 1)) ∧
    (((AppendOnlyWriter.fresh 1 2 3).appendEigenvalues 300 [5]).1.file =
      (AppendOnlyWriter.fresh 1 2 3).file ++ u32le 300 ++
        [([(5 : Nat)] : List Nat).length] ++ (([(5 : Nat)] : List Nat).map u64le).flatten ∧
      (u32le 300).length = 4) :=
  ⟨⟨rfl, by norm_num, Or.inl rfl⟩,
    append_emits_fixed_u32_identifier _ 300 [5] 1 rfl (by norm_num) (Or.inl rfl)⟩

/-! ## Scan-path lemmas -/

theorem readEigenvaluesGo_none (c : Nat) : ∀ (B : List Nat) (pos : Nat),
    1 ≤ c → B.length < pos + 8 * c → readEigenvaluesGo B pos c = none := by
  induction c with
  | zero => omega
  | succ c ih =>
    intro B pos _ hlen
    by_cases hc : c = 0
    · subst hc
      simp only [readEigenvaluesGo]
      rw [readExact_none B pos 8 (by omega)]
    · simp only [readEigenvaluesGo]
      cases hre : readExact B pos 8 with
      | none => rfl
      | some vb =>
        rw [ih B (pos + 8) (by omega) (by omega)]

/-- The scan loop over the encoding of complete records followed by trailing
bytes `t` that cannot form a complete record: it returns exactly the
complete records.  The trailing hypothesis covers every way a record write
can be cut short: fewer than 4 seed bytes; exactly the seed; or a seed, a
count byte `c`, and fewer than `8 * c` value bytes.  Seeds must not collide
with the marker prefix `b"EOF_"` (the attached counterexamples show the scan
genuinely fails otherwise). -/
theorem scanReadDataGo_encoded (rs : List (Nat × List Nat)) :
    ∀ (B t : List Nat) (acc : List (Nat × List Nat)) (pos fuel : Nat),
    B.drop pos = (rs.map recordBytes).flatten ++ t →
    (∀ r ∈ rs, r.1 < 2 ^ 32 ∧ r.1 ≠ leFromBytes EOF_MARKER_HEAD ∧
      1 ≤ r.2.length ∧ r.2.length ≤ 255 ∧ ∀ v ∈ r.2, v < 2 ^ 64) →
    (4 ≤ t.length →
      t.take 4 ≠ EOF_MARKER_HEAD ∧
      (t.drop 4 = [] ∨ ∃ c vb, t.drop 4 = c :: vb ∧ (c = 0 ∨ vb.length < 8 * c))) →
    B.length - pos < fuel →
    scanReadDataGo B fuel pos acc = .ok (acc ++ rs) := by
  induction rs with
  | nil =>
    intro B t acc pos fuel hdrop hrs ht hfuel
    cases fuel with
    | zero => omega
    | succ f =>
      simp only [List.map_nil, List.flatten_nil, List.nil_append] at hdrop
      have hlent := congrArg List.length hdrop
      rw [List.length_drop] at hlent
      simp only [List.append_nil]
      by_cases h4 : t.length < 4
      · simp only [scanReadDataGo]
        rw [readExact_none B pos 4 (by omega)]
      · push_neg at h4
        obtain ⟨ht4ne, htail⟩ := ht h4
        have ht44 : (t.take 4).length = 4 := by
          rw [List.length_take]
          omega
        have hpos : pos ≤ B.length := by omega
        have hdrop' : B.drop pos = t.take 4 ++ t.drop 4 := by
          rw [List.take_append_drop]
          exact hdrop
        have hx1 : readExact B pos 4 = some (t.take 4) :=
          readExact_some B _ _ pos 4 hpos hdrop' ht44
        have hdrop4 : B.drop (pos + 4) = t.drop 4 := by
          rw [drop_add, hdrop', List.drop_left' ht44]
        have hlen4 := congrArg List.length hdrop4
        rw [List.length_drop] at hlen4
        simp only [scanReadDataGo, hx1, if_neg ht4ne]
        by_cases hz : t.take 4 = [0, 0, 0, 0]
        · simp only [if_pos hz]
          rcases htail with h0 | ⟨c, vb, hcv, hc⟩
          · have hBlen : B.length = pos + 4 := by
              rw [h0] at hlen4
              simp at hlen4
              omega
            rw [readExact_none B (pos + 4) 1 (by omega)]
            have hT : t = [0, 0, 0, 0] := by
              rw [← List.take_append_drop 4 t, hz, h0]
              rfl
            have hd3 : B.drop (B.length - 1) = [0] := by
              rw [show B.length - 1 = pos + 3 by omega, drop_add, hdrop, hT]
              rfl
            have hx3 : readExact B (B.length - 1) 1 = some [0] :=
              readExact_some B [0] [] (B.length - 1) 1 (by omega)
                (by rw [hd3]; rfl) rfl
            simp [hx3, leFromBytes_singleton]
          · have hx4 : readExact B (pos + 4) 1 = some [c] := by
              refine readExact_some B [c] vb (pos + 4) 1 ?_ ?_ rfl
              · rw [hcv] at hlen4
                simp only [List.length_cons] at hlen4
                omega
              · rw [hdrop4, hcv]
                rfl
            simp only [hx4]
            by_cases hc0 : c = 0
            · subst hc0
              simp
            · rw [if_neg (by simpa using hc0)]
              simp only [hx4, leFromBytes_singleton]
              rw [if_neg hc0]
              rcases hc with h | hlt
              · exact absurd h hc0
              · rw [readEigenvaluesGo_none c B (pos + 4 + 1) (by omega) (by
                  rw [hcv] at hlen4
                  simp only [List.length_cons] at hlen4
                  omega)]
        · simp only [if_neg hz]
          rcases htail with h0 | ⟨c, vb, hcv, hc⟩
          · have hBlen : B.length = pos + 4 := by
              rw [h0] at hlen4
              simp at hlen4
              omega
            rw [readExact_none B (pos + 4) 1 (by omega)]
          · have hx4 : readExact B (pos + 4) 1 = some [c] := by
              refine readExact_some B [c] vb (pos + 4) 1 ?_ ?_ rfl
              · rw [hcv] at hlen4
                simp only [List.length_cons] at hlen4
                omega
              · rw [hdrop4, hcv]
                rfl
            simp only [hx4, leFromBytes_singleton]
            by_cases hc0 : c = 0
            · simp only [if_pos hc0]
            · rw [if_neg hc0]
              rcases hc with h | hlt
              · exact absurd h hc0
              · rw [readEigenvaluesGo_none c B (pos + 4 + 1) (by omega) (by
                  rw [hcv] at hlen4
                  simp only [List.length_cons] at hlen4
                  omega)]
  | cons r rs ih =>
    intro B t acc pos fuel hdrop hrs ht hfuel
    obtain ⟨hseed32, hseedne, hl1, hl255, hv64⟩ := hrs r (by simp)
    have hkmod : r.2.length % 256 = r.2.length := Nat.mod_eq_of_lt (by omega)
    have hdrop0 : B.drop pos = u32le r.1 ++
        ([r.2.length] ++ ((r.2.map u64le).flatten ++ ((rs.map recordBytes).flatten ++ t))) := by
      simpa [recordBytes, hkmod, List.append_assoc] using hdrop
    have hlen0 := congrArg List.length hdrop0
    rw [List.length_drop] at hlen0
    simp only [List.length_append, u32le_length, List.length_singleton,
      flatten_u64le_length] at hlen0
    have hpos : pos ≤ B.length := by omega
    cases fuel with
    | zero => omega
    | succ f =>
      have hx1 : readExact B pos 4 = some (u32le r.1) :=
        readExact_some B _ _ pos 4 hpos hdrop0 (u32le_length r.1)
      have hdrop4 : B.drop (pos + 4) =
          [r.2.length] ++ ((r.2.map u64le).flatten ++ ((rs.map recordBytes).flatten ++ t)) := by
        rw [drop_add, hdrop0, List.drop_left' (u32le_length r.1)]
      have hxcnt : readExact B (pos + 4) 1 = some [r.2.length] :=
        readExact_some B _ _ (pos + 4) 1 (by omega) hdrop4 rfl
      have hdrop5 : B.drop (pos + 4 + 1) =
          (r.2.map u64le).flatten ++ ((rs.map recordBytes).flatten ++ t) := by
        rw [drop_add, hdrop4]
        rfl
      have hne : u32le r.1 ≠ EOF_MARKER_HEAD := fun hEq =>
        hseedne (by rw [← leFromBytes_u32le r.1 hseed32, hEq])
      simp only [scanReadDataGo, hx1, if_neg hne]
      have hstep : ∀ acc', scanReadDataGo B f (pos + 4 + 1 + 8 * r.2.length) acc' =
          .ok (acc' ++ rs) := by
        intro acc'
        have hfuel' : B.length - (pos + 4 + 1 + 8 * r.2.length) < f := by omega
        have hdropNext : B.drop (pos + 4 + 1 + 8 * r.2.length) =
            (rs.map recordBytes).flatten ++ t := by
          rw [drop_add, hdrop5, List.drop_left' (by
            rw [flatten_u64le_length] :
              ((r.2.map u64le).flatten).length = 8 * r.2.length)]
        exact ih B t acc' (pos + 4 + 1 + 8 * r.2.length) f hdropNext
          (fun r' hr' => hrs r' (by simp [hr'])) ht hfuel'
      by_cases hz : u32le r.1 = [0, 0, 0, 0]
      · simp only [if_pos hz, hxcnt]
        rw [if_neg (show ¬ ([r.2.length] : List Nat) = [0] by
          intro hEq
          injection hEq with h1 h2
          omega)]
        simp only [hxcnt, leFromBytes_singleton]
        rw [if_neg (show ¬ r.2.length = 0 by omega)]
        have hvals : readEigenvaluesGo B (pos + 4 + 1) r.2.length = some r.2 :=
          readEigenvaluesGo_encoded r.2 B ((rs.map recordBytes).flatten ++ t) (pos + 4 + 1)
            hdrop5 hv64
        simp only [hvals, leFromBytes_u32le r.1 hseed32, hstep]
        simp
      · simp only [if_neg hz, hxcnt, leFromBytes_singleton]
        rw [if_neg (show ¬ r.2.length = 0 by omega)]
        have hvals : readEigenvaluesGo B (pos + 4 + 1) r.2.length = some r.2 :=
          readEigenvaluesGo_encoded r.2 B ((rs.map recordBytes).flatten ++ t) (pos + 4 + 1)
            hdrop5 hv64
        simp only [hvals, leFromBytes_u32le r.1 hseed32, hstep]
        simp

/-- C3 (amended): a file with a valid header, complete records and a
trailing incomplete record but no footer is read through the scan path,
which returns exactly the complete records and silently drops the trailing
fragment — provided the file is at least 35 bytes (shorter files take the
too-small branch and return no records at all), the 8 bytes at offset
`len - 17` do not happen to spell the footer marker, every record has a
value count in `1 ..= 255`, and no record's identifier equals
`leFromBytes b"EOF_"` (such an identifier's bytes can collide with the
scan's marker probe). -/
theorem scan_recovers_complete_records (model dim steps : Nat)
    (rs : List (Nat × List Nat)) (t : List Nat) (B : List Nat)
    (hB : B = headerBytes model dim steps ++ (rs.map recordBytes).flatten ++ t)
    (hsteps : steps < 2 ^ 32)
    (hrs : ∀ r ∈ rs, r.1 < 2 ^ 32 ∧ r.1 ≠ leFromBytes EOF_MARKER_HEAD ∧
      1 ≤ r.2.length ∧ r.2.length ≤ 255 ∧ ∀ v ∈ r.2, v < 2 ^ 64)
    (ht : 4 ≤ t.length →
      t.take 4 ≠ EOF_MARKER_HEAD ∧
      (t.drop 4 = [] ∨ ∃ c vb, t.drop 4 = c :: vb ∧ (c = 0 ∨ vb.length < 8 * c)))
    (hlen : 35 ≤ B.length)
    (hnofooter : byteSlice B (B.length - 17) 8 ≠ EOF_MARKER) :
    readAppendFile B = .ok (rs, model, dim, steps) := by
  have hBassoc : B = MAGIC_HEADER ++ ([model] ++ ([dim] ++ (u32le steps ++
      ((rs.map recordBytes).flatten ++ t)))) := by
    simp [hB, headerBytes, List.append_assoc]
  have hd0 : B.drop 0 = MAGIC_HEADER ++ ([model] ++ ([dim] ++ (u32le steps ++
      ((rs.map recordBytes).flatten ++ t)))) := by
    rw [List.drop_zero]
    exact hBassoc
  have hd12 : B.drop 12 = [model] ++ ([dim] ++ (u32le steps ++
      ((rs.map recordBytes).flatten ++ t))) := by
    rw [hBassoc, List.drop_left' (by rfl : MAGIC_HEADER.length = 12)]
  have hd13 : B.drop 13 = [dim] ++ (u32le steps ++
      ((rs.map recordBytes).flatten ++ t)) := by
    rw [show (13 : Nat) = 12 + 1 by omega, drop_add, hd12,
      List.drop_left' (by rfl : List.length [model] = 1)]
  have hd14 : B.drop 14 = u32le steps ++ ((rs.map recordBytes).flatten ++ t) := by
    rw [show (14 : Nat) = 13 + 1 by omega, drop_add, hd13,
      List.drop_left' (by rfl : List.length [dim] = 1)]
  have hd18 : B.drop 18 = (rs.map recordBytes).flatten ++ t := by
    rw [show (18 : Nat) = 14 + 4 by omega, drop_add, hd14,
      List.drop_left' (u32le_length steps)]
  have hx0 : readExact B 0 12 = some MAGIC_HEADER :=
    readExact_some B _ _ 0 12 (by omega) hd0 rfl
  have hx12 : readExact B 12 1 = some [model] :=
    readExact_some B _ _ 12 1 (by omega) hd12 rfl
  have hx13 : readExact B 13 1 = some [dim] :=
    readExact_some B _ _ 13 1 (by omega) hd13 rfl
  have hx14 : readExact B 14 4 = some (u32le steps) :=
    readExact_some B _ _ 14 4 (by omega) hd14 (u32le_length steps)
  have hmeta : readFileMetadata B = none := by
    unfold readFileMetadata
    rw [if_neg hnofooter]
  have hscan : scanReadData B = .ok rs :=
    scanReadDataGo_encoded rs B t [] 18 (B.length + 1) hd18 hrs ht (by omega)
  simp only [readAppendFile, hx0, hx12, hx13, hx14]
  rw [if_neg (by simp : ¬ MAGIC_HEADER ≠ MAGIC_HEADER)]
  rw [if_neg (by omega : ¬ B.length < 18 + 8 + 8 + 1)]
  simp only [hmeta, hscan, leFromBytes_singleton, leFromBytes_u32le steps hsteps]

/-- C3 counterexample: a 31-byte footerless file holding one complete
record `(1, [5])` is below the 35-byte threshold, so `read_append_file`
returns no records at all — not the complete record the claim requires —
without ever entering the scan path. -/
theorem scan_small_file_counterexample :
    readAppendFile (headerBytes 1 2 3 ++ recordBytes (1, [5])) = .ok ([], 1, 2, 3) ∧
    (headerBytes 1 2 3 ++ recordBytes (1, [5])).length = 31 ∧
    ([] : List (Nat × List Nat)) ≠ [(1, [5])] := by
  decide

/-- A second genuine scan failure (not used as the official counterexample):
a complete record whose identifier bytes spell `b"EOF_"` and whose count
byte and first value bytes spell `b"MARK"` trips the scan's marker probe, so
the record is silently dropped even though it is complete and no footer was
written. -/
theorem scan_marker_collision_drops_record :
    readAppendFile
        (headerBytes 1 2 3 ++ recordBytes (1598443333, 4936257 :: List.replicate 76 0)) =
      .ok ([], 1, 2, 3) ∧
    u32le 1598443333 = EOF_MARKER_HEAD ∧
    (4936257 :: List.replicate 76 0).length = 77 := by
  decide

/-- Witness for the amended C3: two complete records and a 4-byte trailing
fragment are scanned back exactly. -/
theorem scan_recovers_complete_records_witness :
    35 ≤ (headerBytes 1 2 3 ++ (([(1, [5]), (2, [6])].map recordBytes).flatten) ++
      [3, 0, 0, 0]).length ∧
    readAppendFile (headerBytes 1 2 3 ++ (([(1, [5]), (2, [6])].map recordBytes).flatten) ++
      [3, 0, 0, 0]) = .ok ([(1, [5]), (2, [6])], 1, 2, 3) :=
  ⟨by decide,
    scan_recovers_complete_records 1 2 3 [(1, [5]), (2, [6])] [3, 0, 0, 0] _ rfl
      (by norm_num) (by decide) (fun _ => ⟨by decide, Or.inl rfl⟩) (by decide) (by decide)⟩
